import Mathlib

/-
Verification of the multikernel OS simulation (per-core kernels coordinating by
message passing).  The definitions below are a shallow embedding of the C++
sources: CoreKernel and MultikernelSystem.  Pure computations become Lean
functions; the interleaving relevant to migration is modelled as an explicit
step relation; machine integers are Int (values stay far from every bound, and
overflow never occurs on the modelled paths).
-/

namespace Multikernel

/-- Number of cores, from the configuration block of the header. -/
def NUM_CORES : Nat := 8

/-- Bound on messages per core inbox, from the configuration block. -/
def MESSAGE_QUEUE_SIZE : Nat := 100

/-- Largest value of a C int, the initial value of min_load in
MultikernelSystem::get_least_loaded_core. -/
def INT_MAX : Int := 2147483647

/-- Message types of the inter-core protocol (enum MessageType). -/
inductive MessageType where
  | PROCESS_CREATE
  | PROCESS_MIGRATE
  | PROCESS_TERMINATE
  | RESOURCE_REQUEST
  | RESOURCE_RELEASE
  | SYNC_BARRIER
  | HEARTBEAT
  | SHUTDOWN
deriving DecidableEq

/-- Process states (enum ProcessState). -/
inductive ProcessState where
  | READY
  | RUNNING
  | BLOCKED
  | TERMINATED
deriving DecidableEq

/-- Embeds struct Message.  The char data buffer carries, on every modelled
path, exactly the text priority=N written by snprintf and read back by sscanf;
it is modelled by the integer payload_priority.  The timestamp is the monotonic
send time in microseconds. -/
structure Message where
  source_core : Int
  dest_core : Int
  type : MessageType
  process_id : Int
  payload_priority : Int
  timestamp : Int
deriving DecidableEq

/-- Embeds struct ProcessControlBlock.  cpu_time is in milliseconds.  The
creation_time field is omitted: the source writes it once in the constructor
and never reads it. -/
structure ProcessControlBlock where
  pid : Int
  core_id : Int
  state : ProcessState
  priority : Int
  cpu_time : Nat
deriving DecidableEq

/-- Embeds struct CoreStatistics (the atomic counters, as plain integers since
each theorem fixes one interleaving). -/
structure CoreStatistics where
  messages_sent : Nat
  messages_received : Nat
  processes_executed : Nat
  context_switches : Nat
  avg_message_latency_us : Int
  current_load : Int
deriving DecidableEq

/-- The state of one CoreKernel that the modelled operations touch: its id,
its inbox queue (front of the list is the front of the queue), its process
table and its statistics.  The mutexes, condition variable and worker thread
are synchronization plumbing with no data content. -/
structure CoreKernelState where
  core_id : Int
  inbox : List Message
  process_table : List ProcessControlBlock
  stats : CoreStatistics
deriving DecidableEq

/-- Result of a send: the message was enqueued, or dropped. -/
inductive SendResult where
  | Accepted
  | Rejected
deriving DecidableEq

/-- Embeds CoreKernel::send_message.  The routed flag abstracts the check that
the all_cores routing pointer is set, covers the destination index, and the
destination entry is non-null.  Returns the result together with the updated
sender statistics and destination inbox; on every drop path the function
returns after a log line, changing nothing. -/
def send_message (routed : Bool) (senderStats : CoreStatistics) (msg : Message)
    (destInbox : List Message) : SendResult × CoreStatistics × List Message :=
  if msg.dest_core < 0 ∨ (NUM_CORES : Int) ≤ msg.dest_core then
    (SendResult.Rejected, senderStats, destInbox)
  else if routed = false then
    (SendResult.Rejected, senderStats, destInbox)
  else if MESSAGE_QUEUE_SIZE ≤ destInbox.length then
    (SendResult.Rejected, senderStats, destInbox)
  else
    (SendResult.Accepted,
     { senderStats with messages_sent := senderStats.messages_sent + 1 },
     destInbox ++ [msg])

/-- Embeds CoreKernel::receive_message at the instant the wait (if any)
completes, with now the current monotonic clock in microseconds.  With
timeout_ms positive the code pops, counts the message and stores the latency
sample; with timeout_ms zero it pops and counts but does not touch the latency
gauge.  An empty inbox yields none in both forms (timeout, or the running flag
cleared, or an empty non-blocking poll). -/
def receive_message (timeout_ms : Nat) (now : Int) (running : Bool)
    (inbox : List Message) (stats : CoreStatistics) :
    Option Message × List Message × CoreStatistics :=
  if 0 < timeout_ms then
    match inbox with
    | [] => (none, inbox, stats)
    | m :: rest =>
        (some m, rest,
         { stats with
             messages_received := stats.messages_received + 1,
             avg_message_latency_us := now - m.timestamp })
  else
    match inbox with
    | [] => (none, inbox, stats)
    | m :: rest =>
        (some m, rest,
         { stats with messages_received := stats.messages_received + 1 })

/-- A sample statistics record with every counter zero. -/
def statsZero : CoreStatistics := ⟨0, 0, 0, 0, 0, 0⟩

/-- A sample heartbeat message from core 0 to core 1, sent at clock 100. -/
def msgSample : Message := ⟨0, 1, MessageType.HEARTBEAT, -1, 5, 100⟩

/-- Embeds the threshold selection of CoreKernel::execute_processes: the value
the uniform draw from 1..100 must exceed for the process to be terminated,
chosen from the accumulated cpu time in milliseconds. -/
def termination_threshold (cpu_ms : Nat) : Nat :=
  if 600 < cpu_ms then 20
  else if 300 < cpu_ms then 50
  else if 150 < cpu_ms then 70
  else 80

/-- Embeds the termination test of CoreKernel::execute_processes: the process
is terminated exactly when the draw exceeds the threshold. -/
def terminate_decision (draw cpu_ms : Nat) : Bool :=
  termination_threshold cpu_ms < draw

/-- Number of draws among the 100 equiprobable outcomes 1..100 of dis(gen)
that terminate a process with the given accumulated cpu time: 100 times the
termination probability. -/
def terminating_draws (cpu_ms : Nat) : Nat :=
  ((Finset.Icc 1 100).filter (fun d => terminate_decision d cpu_ms = true)).card

/-- Embeds the per-PCB loop of CoreKernel::execute_processes: each READY or
RUNNING process is promoted to RUNNING, charged a 50 ms quantum, counted in
processes_executed and context_switches, and terminated when its draw exceeds
the threshold.  The RNG draws are passed as a list, one consumed per executed
process. -/
def run_pass : List ProcessControlBlock → List Nat → CoreStatistics →
    List ProcessControlBlock × List Nat × CoreStatistics
  | [], draws, st => ([], draws, st)
  | pcb :: rest, draws, st =>
    if pcb.state = ProcessState.READY ∨ pcb.state = ProcessState.RUNNING then
      let cpu2 := pcb.cpu_time + 50
      let st2 := { st with
        processes_executed := st.processes_executed + 1,
        context_switches := st.context_switches + 1 }
      let state2 := if terminate_decision (draws.headD 0) cpu2 then
          ProcessState.TERMINATED else ProcessState.RUNNING
      let r := run_pass rest draws.tail st2
      ({ pcb with cpu_time := cpu2, state := state2 } :: r.1, r.2)
    else
      let r := run_pass rest draws st
      (pcb :: r.1, r.2)

/-- Embeds CoreKernel::execute_processes: one scheduler pass (run_pass)
followed by the sweep that erases every TERMINATED entry and the assignment of
the resulting table size to current_load. -/
def execute_processes (table : List ProcessControlBlock)
    (stats : CoreStatistics) (draws : List Nat) :
    List ProcessControlBlock × CoreStatistics :=
  let passed := (run_pass table draws stats).1
  let st1 := (run_pass table draws stats).2.2
  let swept := passed.filter (fun p => p.state != ProcessState.TERMINATED)
  (swept, { st1 with current_load := (swept.length : Int) })

/-- A sample READY process with pid 3 on core 0 and 700 ms of cpu time. -/
def pcbHot : ProcessControlBlock :=
  ⟨3, 0, ProcessState.READY, 5, 700⟩

/-- Embeds the selection loop of MultikernelSystem::get_least_loaded_core: i
is the index of the next load to examine, ml the running minimum (initially
INT_MAX) and b the index of the running best core (initially 0); an update
happens only on a strict decrease, so ties keep the earlier index. -/
def least_loaded_loop : List Int → Nat → Int → Nat → Int × Nat
  | [], _, ml, b => (ml, b)
  | l :: rest, i, ml, b =>
      if l < ml then least_loaded_loop rest (i + 1) l i
      else least_loaded_loop rest (i + 1) ml b

/-- Embeds MultikernelSystem::get_least_loaded_core over the list of the per
core loads read by the loop. -/
def get_least_loaded_core (loads : List Int) : Nat :=
  (least_loaded_loop loads 0 INT_MAX 0).2

/-- The MultikernelSystem state the modelled operations touch: the
system_running flag, the function-static atomic pid counter of
CoreKernel::create_process (shared by every core, so it lives here), the
routing flag (all_cores pointers handed out by start) and the per core
states. -/
structure MKSystem where
  system_running : Bool
  routing_ready : Bool
  global_pid : Int
  cores : List CoreKernelState
deriving DecidableEq

/-- Placeholder core used as the default of out-of-range list reads; every
modelled access is in range. -/
def defaultCore : CoreKernelState := ⟨0, [], [], statsZero⟩

/-- Embeds the routing step of CoreKernel::send_message at system level: the
sender looks up the destination core through all_cores and pushes into its
inbox via send_message; on Accepted the destination inbox and the sender
messages_sent counter are written back, on Rejected nothing changes. -/
def system_send (s : MKSystem) (sender_idx : Nat) (msg : Message) : MKSystem :=
  let sender := s.cores.getD sender_idx defaultCore
  let d := msg.dest_core.toNat
  let dest := s.cores.getD d defaultCore
  match send_message s.routing_ready sender.stats msg dest.inbox with
  | (SendResult.Rejected, _, _) => s
  | (SendResult.Accepted, st2, ib2) =>
    if sender_idx = d then
      { s with cores := s.cores.set d { dest with stats := st2, inbox := ib2 } }
    else
      let cores2 := s.cores.set d { dest with inbox := ib2 }
      { s with cores := cores2.set sender_idx { sender with stats := st2 } }

/-- Embeds CoreKernel::create_process on the core at index i: draw the next
pid from the shared counter, append a READY PCB carrying that pid, the id of
this core and the requested priority, and increment current_load. -/
def create_process_at (s : MKSystem) (i : Nat) (priority : Int) :
    Int × MKSystem :=
  let c := s.cores.getD i defaultCore
  let pid := s.global_pid
  let pcb : ProcessControlBlock := ⟨pid, c.core_id, ProcessState.READY, priority, 0⟩
  let c2 := { c with
    process_table := c.process_table ++ [pcb],
    stats := { c.stats with current_load := c.stats.current_load + 1 } }
  (pid, { s with global_pid := s.global_pid + 1, cores := s.cores.set i c2 })

/-- The removal step at the end of CoreKernel::migrate_process: erase the
first PCB carrying the pid and decrement current_load. -/
def erase_core (c : CoreKernelState) (pid : Int) : CoreKernelState :=
  { c with
    process_table := c.process_table.eraseP (fun p => p.pid == pid),
    stats := { c.stats with current_load := c.stats.current_load - 1 } }

/-- Embeds CoreKernel::migrate_process on the core at index src_idx: look for
the pid; when absent return false; when present build the MIGRATE message
carrying the priority, hand it to send_message (which may silently drop it),
then erase the found PCB, decrement current_load and return true. -/
def migrate_process_at (s : MKSystem) (src_idx : Nat) (pid : Int)
    (target_core : Int) (now : Int) : Bool × MKSystem :=
  let src := s.cores.getD src_idx defaultCore
  match src.process_table.find? (fun p => p.pid == pid) with
  | none => (false, s)
  | some pcb =>
    let msg : Message :=
      ⟨src.core_id, target_core, MessageType.PROCESS_MIGRATE, pid, pcb.priority, now⟩
    let s1 := system_send s src_idx msg
    let src2 := erase_core (s1.cores.getD src_idx defaultCore) pid
    (true, { s1 with cores := s1.cores.set src_idx src2 })

/-- Embeds MultikernelSystem::create_process: refuse with -1 when the system
is not running, otherwise create on the least loaded core. -/
def MultikernelSystem.create_process (s : MKSystem) (priority : Int) :
    Int × MKSystem :=
  if s.system_running = false then (-1, s)
  else
    create_process_at s
      (get_least_loaded_core (s.cores.map fun c => c.stats.current_load)) priority

/-- Embeds MultikernelSystem::migrate_process: reject out-of-range core ids,
otherwise delegate to the source core.  The source contains no check of the
system_running flag on this path. -/
def MultikernelSystem.migrate_process (s : MKSystem)
    (pid source_core target_core now : Int) : Bool × MKSystem :=
  if source_core < 0 ∨ (NUM_CORES : Int) ≤ source_core ∨
     target_core < 0 ∨ (NUM_CORES : Int) ≤ target_core then
    (false, s)
  else migrate_process_at s source_core.toNat pid target_core now

/-- A single-core system holding one process with pid 0 and counter 1. -/
def sysOne : MKSystem :=
  ⟨true, true, 1, [⟨0, [], [⟨0, 0, ProcessState.READY, 5, 0⟩], ⟨0, 0, 0, 0, 0, 1⟩⟩]⟩

/-- An idle core with the given id: empty inbox, empty table, zero counters. -/
def idleCore (i : Int) : CoreKernelState := ⟨i, [], [], statsZero⟩

/-- An 8-core system that is NOT running (system_running = false, as after
shutdown) but whose core 0 still holds a PCB with pid 7; the routing pointers
installed by start() persist. -/
def sysStopped : MKSystem :=
  ⟨false, true, 8,
   [⟨0, [], [⟨7, 0, ProcessState.READY, 5, 0⟩], ⟨0, 0, 0, 0, 0, 1⟩⟩,
    idleCore 1, idleCore 2, idleCore 3, idleCore 4, idleCore 5,
    idleCore 6, idleCore 7]⟩

/-- A running single-core system whose core 0 holds exactly one PCB, pid 7. -/
def sysLost : MKSystem :=
  ⟨true, true, 8, [⟨0, [], [⟨7, 0, ProcessState.READY, 5, 0⟩], ⟨0, 0, 0, 0, 0, 1⟩⟩]⟩

/-- Observable state of one migration of a fixed pid from a source core to a
target core, abstracted to what the two tables and the target inbox say about
that pid: whether the source table still holds it, whether the MIGRATE
message is in the target inbox, whether the target table holds it, and how
far the source thread has progressed inside migrate_process (0 = before
send_message, 1 = message enqueued and local erase pending, 2 = returned). -/
structure MigrationState where
  src_has : Bool
  msg_in_flight : Bool
  tgt_has : Bool
  src_pc : Nat
deriving DecidableEq

/-- Start of migrate_process: the pid was found locally, nothing sent yet. -/
def initMigration : MigrationState := ⟨true, false, false, 0⟩

/-- Interleaved small-step semantics of one migration whose message is
deliverable: the source thread enqueues the MIGRATE into the target inbox
(send_message inside migrate_process) and afterwards erases its local PCB;
the target worker may consume the message at any moment once it is in
flight, appending the PCB to its table (handle_process_migrate).  The
process_mutex held by the source does not block the target, whose handler
locks the distinct mutex of the target core. -/
inductive MigrationStep : MigrationState → MigrationState → Prop where
  | enqueue (s : MigrationState) (h : s.src_pc = 0) :
      MigrationStep s { s with msg_in_flight := true, src_pc := 1 }
  | erase (s : MigrationState) (h : s.src_pc = 1) :
      MigrationStep s { s with src_has := false, src_pc := 2 }
  | consume (s : MigrationState) (h : s.msg_in_flight = true) :
      MigrationStep s { s with msg_in_flight := false, tgt_has := true }

/-- States reachable from the start of the migration. -/
inductive MigrationReachable : MigrationState → Prop where
  | init : MigrationReachable initMigration
  | step {s t : MigrationState} (hr : MigrationReachable s)
      (hs : MigrationStep s t) : MigrationReachable t

/-- The five states one migration can pass through. -/
def migrationStateList : List MigrationState :=
  [⟨true, false, false, 0⟩, ⟨true, true, false, 1⟩, ⟨true, false, true, 1⟩,
   ⟨false, true, false, 2⟩, ⟨false, false, true, 2⟩]

/-- Operations on the coordinator load_balancer_mutex. -/
inductive LockOp where
  | acquire
  | release
deriving DecidableEq

/-- Embeds the sequence of load_balancer_mutex operations performed by one
call of MultikernelSystem::balance_load on cores carrying the given loads:
the entry lock_guard acquires; on zero total load the early return releases;
otherwise, for every core whose load strictly exceeds 1.5 times the average
load (the float arithmetic of the source is exact for the integers involved
here, so it is modelled by exact rational arithmetic), the nested call to
get_least_loaded_core opens and closes a lock_guard on the SAME mutex; the
entry guard releases on return. -/
def balance_load_lock_trace (loads : List Int) : List LockOp :=
  [LockOp.acquire] ++
    (if loads.sum = 0 then []
     else
       (List.range NUM_CORES).foldl
         (fun acc i =>
           if ((loads.getD i 0 : ℚ)) >
               (loads.sum : ℚ) / (NUM_CORES : ℚ) * 3 / 2 then
             acc ++ [LockOp.acquire, LockOp.release]
           else acc) []) ++
  [LockOp.release]

/-- True when the trace tries to acquire the mutex at a point where it is
already held (held is the current depth); on the non-recursive std::mutex of
the source this acquire never returns: a self-deadlock. -/
def acquire_while_held : Nat → List LockOp → Bool
  | _, [] => false
  | held, LockOp.acquire :: rest =>
      decide (1 ≤ held) || acquire_while_held (held + 1) rest
  | held, LockOp.release :: rest => acquire_while_held (held - 1) rest

/-- C3: occupancy of an inbox never exceeds MESSAGE_QUEUE_SIZE; a push that
observes occupancy at capacity is Rejected and leaves the inbox and both
message counters unchanged, while a deliverable push below capacity appends the
message and increments exactly the sender counter messages_sent. -/
theorem C3_inbox_backpressure (routed : Bool) (msg : Message)
    (stats : CoreStatistics) (inbox : List Message)
    (hcap : inbox.length ≤ MESSAGE_QUEUE_SIZE) :
    (send_message routed stats msg inbox).2.2.length ≤ MESSAGE_QUEUE_SIZE ∧
    (MESSAGE_QUEUE_SIZE ≤ inbox.length →
      send_message routed stats msg inbox = (SendResult.Rejected, stats, inbox)) ∧
    (0 ≤ msg.dest_core → msg.dest_core < (NUM_CORES : Int) → routed = true →
      inbox.length < MESSAGE_QUEUE_SIZE →
      send_message routed stats msg inbox =
        (SendResult.Accepted,
         { stats with messages_sent := stats.messages_sent + 1 },
         inbox ++ [msg])) := by
  unfold send_message
  refine ⟨?_, ?_, ?_⟩
  · split_ifs with h1 h2 h3
    · exact hcap
    · exact hcap
    · exact hcap
    · simp only [List.length_append, List.length_cons, List.length_nil]
      omega
  · intro hfull
    split_ifs <;> first | rfl | simp_all
  · intro hge hlt hrouted hroom
    have h1 : ¬ (msg.dest_core < 0 ∨ (NUM_CORES : Int) ≤ msg.dest_core) := by
      push_neg
      exact ⟨by omega, by omega⟩
    have h2 : ¬ (routed = false) := by simp [hrouted]
    have h3 : ¬ (MESSAGE_QUEUE_SIZE ≤ inbox.length) := by omega
    rw [if_neg h1, if_neg h2, if_neg h3]

/-- Witness for C3: pushing the sample message into an empty inbox is accepted,
appends it and bumps messages_sent to one. -/
theorem C3_inbox_backpressure_witness :
    send_message true statsZero msgSample [] =
      (SendResult.Accepted,
       { statsZero with messages_sent := statsZero.messages_sent + 1 },
       [msgSample]) := by
  have h := (C3_inbox_backpressure true msgSample statsZero [] (by decide)).2.2
  exact h (by decide) (by decide) rfl (by decide)

/-- C4 counterexample: the non-blocking form (timeout = 0) succeeds on a
non-empty inbox yet leaves avg_message_latency_us untouched, although the true
latency of the sample at clock 4100 is 4000 microseconds, not the stale 0.
This refutes the claim that every successful receive stores the latency. -/
theorem C4_nonblocking_skips_latency :
    (receive_message 0 4100 true [msgSample] statsZero).1 = some msgSample ∧
    (receive_message 0 4100 true [msgSample] statsZero).2.2.avg_message_latency_us = 0 ∧
    4100 - msgSample.timestamp = 4000 ∧ (4000 : Int) ≠ 0 := by
  refine ⟨rfl, rfl, rfl, by decide⟩

/-- C4 (amended): a successful blocking receive (timeout positive) pops the
front message, increments messages_received and stores now minus the message
timestamp in avg_message_latency_us; a successful non-blocking receive
(timeout = 0) pops and increments messages_received but leaves
avg_message_latency_us unchanged. -/
theorem C4_latency_accounting (timeout_ms : Nat) (now : Int) (running : Bool)
    (m : Message) (rest : List Message) (stats : CoreStatistics)
    (hpos : 0 < timeout_ms) :
    receive_message timeout_ms now running (m :: rest) stats =
      (some m, rest,
       { stats with
           messages_received := stats.messages_received + 1,
           avg_message_latency_us := now - m.timestamp }) ∧
    receive_message 0 now running (m :: rest) stats =
      (some m, rest,
       { stats with messages_received := stats.messages_received + 1 }) := by
  constructor
  · unfold receive_message
    rw [if_pos hpos]
  · unfold receive_message
    rfl

/-- Witness for C4: receiving the sample message with timeout 10 at clock 4100
stores the 4000 microsecond latency sample. -/
theorem C4_latency_accounting_witness :
    receive_message 10 4100 true [msgSample] statsZero =
      (some msgSample, [],
       { statsZero with
           messages_received := statsZero.messages_received + 1,
           avg_message_latency_us := 4100 - msgSample.timestamp }) :=
  (C4_latency_accounting 10 4100 true msgSample [] statsZero (by decide)).1

/-- Thresholds do not increase as accumulated cpu time grows. -/
theorem termination_threshold_antitone {c1 c2 : Nat} (h : c1 ≤ c2) :
    termination_threshold c2 ≤ termination_threshold c1 := by
  unfold termination_threshold
  split_ifs <;> omega

/-- Count of the draws in 1..100 exceeding 20. -/
theorem draws_over_20 : ((Finset.Icc 1 100).filter (fun d => 20 < d)).card = 80 := by
  decide

/-- Count of the draws in 1..100 exceeding 50. -/
theorem draws_over_50 : ((Finset.Icc 1 100).filter (fun d => 50 < d)).card = 50 := by
  decide

/-- Count of the draws in 1..100 exceeding 70. -/
theorem draws_over_70 : ((Finset.Icc 1 100).filter (fun d => 70 < d)).card = 30 := by
  decide

/-- Count of the draws in 1..100 exceeding 80. -/
theorem draws_over_80 : ((Finset.Icc 1 100).filter (fun d => 80 < d)).card = 20 := by
  decide

/-- The terminating draw count is determined by the threshold. -/
theorem terminating_draws_eq (cpu_ms t : Nat)
    (ht : termination_threshold cpu_ms = t) :
    terminating_draws cpu_ms =
      ((Finset.Icc 1 100).filter (fun d => t < d)).card := by
  unfold terminating_draws
  congr 1
  apply Finset.filter_congr
  intro d _
  simp [terminate_decision, ht]

/-- C5: in a scheduler pass each READY or RUNNING PCB is terminated exactly
when the RNG draw exceeds the threshold computed from its accumulated cpu
time; the thresholds are 20 above 600 ms, 50 above 300 ms, 70 above 150 ms and
80 otherwise, giving termination probabilities 80, 50, 30 and 20 out of the
100 equiprobable draws; and the probability grows monotonically with the
accumulated cpu time. -/
theorem C5_termination_policy (cpu draw : Nat) (pcb : ProcessControlBlock)
    (st : CoreStatistics)
    (hrun : pcb.state = ProcessState.READY ∨ pcb.state = ProcessState.RUNNING) :
    (terminate_decision draw cpu = decide (termination_threshold cpu < draw)) ∧
    (600 < cpu → termination_threshold cpu = 20 ∧ terminating_draws cpu = 80) ∧
    (300 < cpu → cpu ≤ 600 → termination_threshold cpu = 50 ∧ terminating_draws cpu = 50) ∧
    (150 < cpu → cpu ≤ 300 → termination_threshold cpu = 70 ∧ terminating_draws cpu = 30) ∧
    (cpu ≤ 150 → termination_threshold cpu = 80 ∧ terminating_draws cpu = 20) ∧
    (∀ c2, cpu ≤ c2 → terminating_draws cpu ≤ terminating_draws c2) ∧
    (((run_pass [pcb] [draw] st).1.headD pcb).state =
      if terminate_decision draw (pcb.cpu_time + 50) then
        ProcessState.TERMINATED else ProcessState.RUNNING) := by
  refine ⟨rfl, ?_, ?_, ?_, ?_, ?_, ?_⟩
  · intro h
    have ht : termination_threshold cpu = 20 := by
      unfold termination_threshold
      rw [if_pos h]
    exact ⟨ht, by rw [terminating_draws_eq cpu 20 ht, draws_over_20]⟩
  · intro h1 h2
    have ht : termination_threshold cpu = 50 := by
      unfold termination_threshold
      rw [if_neg (by omega), if_pos h1]
    exact ⟨ht, by rw [terminating_draws_eq cpu 50 ht, draws_over_50]⟩
  · intro h1 h2
    have ht : termination_threshold cpu = 70 := by
      unfold termination_threshold
      rw [if_neg (by omega), if_neg (by omega), if_pos h1]
    exact ⟨ht, by rw [terminating_draws_eq cpu 70 ht, draws_over_70]⟩
  · intro h
    have ht : termination_threshold cpu = 80 := by
      unfold termination_threshold
      rw [if_neg (by omega), if_neg (by omega), if_neg (by omega)]
    exact ⟨ht, by rw [terminating_draws_eq cpu 80 ht, draws_over_80]⟩
  · intro c2 hc
    unfold terminating_draws
    apply Finset.card_le_card
    intro d hd
    simp only [Finset.mem_filter, terminate_decision, decide_eq_true_eq] at hd ⊢
    have := termination_threshold_antitone hc
    exact ⟨hd.1, by omega⟩
  · unfold run_pass
    rw [if_pos hrun]
    rfl

/-- Witness for C5: a READY process holding 700 ms of accumulated cpu time
faces threshold 20 (an 80 in 100 termination chance), and the pass with draw
90 terminates it. -/
theorem C5_termination_policy_witness :
    termination_threshold 750 = 20 ∧ terminating_draws 750 = 80 ∧
    ((run_pass [pcbHot] [90] statsZero).1.headD pcbHot).state =
      ProcessState.TERMINATED := by
  have h := C5_termination_policy 750 90 pcbHot statsZero (Or.inl rfl)
  refine ⟨(h.2.1 (by decide)).1, (h.2.1 (by decide)).2, ?_⟩
  rw [h.2.2.2.2.2.2]
  decide

/-- C9: at the end of every scheduler pass, after the sweep, current_load
equals the size of the process table, and no TERMINATED entry remains in the
table. -/
theorem C9_load_matches_table (table : List ProcessControlBlock)
    (stats : CoreStatistics) (draws : List Nat) :
    (execute_processes table stats draws).2.current_load =
      ((execute_processes table stats draws).1.length : Int) ∧
    ∀ p ∈ (execute_processes table stats draws).1,
      p.state ≠ ProcessState.TERMINATED := by
  constructor
  · rfl
  · intro p hp
    unfold execute_processes at hp
    simp only [List.mem_filter, bne_iff_ne, ne_eq] at hp
    exact hp.2

/-- Characterization of the selection loop: either no load beats the incoming
minimum and the accumulator is returned unchanged, or the result names the
first position achieving the minimum of the list (strictly below the incoming
minimum, weakly below every load, strictly below every earlier load). -/
theorem least_loaded_loop_spec (loads : List Int) :
    ∀ (i : Nat) (ml : Int) (b : Nat),
      (least_loaded_loop loads i ml b = (ml, b) ∧
        ∀ j, j < loads.length → ml ≤ loads.getD j 0) ∨
      (∃ k, k < loads.length ∧
        (least_loaded_loop loads i ml b).2 = i + k ∧
        (least_loaded_loop loads i ml b).1 = loads.getD k 0 ∧
        loads.getD k 0 < ml ∧
        (∀ j, j < loads.length → loads.getD k 0 ≤ loads.getD j 0) ∧
        (∀ j, j < k → loads.getD k 0 < loads.getD j 0)) := by
  induction loads with
  | nil =>
    intro i ml b
    left
    exact ⟨rfl, by intro j hj; simp at hj⟩
  | cons l rest ih =>
    intro i ml b
    have hif : least_loaded_loop (l :: rest) i ml b =
        if l < ml then least_loaded_loop rest (i + 1) l i
        else least_loaded_loop rest (i + 1) ml b := rfl
    by_cases hl : l < ml
    · have hstep : least_loaded_loop (l :: rest) i ml b =
          least_loaded_loop rest (i + 1) l i := by
        rw [hif, if_pos hl]
      rcases ih (i + 1) l i with ⟨heq, hall⟩ | ⟨k, hk, h2, h1, hlt, hmin, hstrict⟩
      · right
        refine ⟨0, by simp, ?_, ?_, hl, ?_, ?_⟩
        · rw [hstep, heq]
          rfl
        · rw [hstep, heq]
          rfl
        · intro j hj
          cases j with
          | zero => simp
          | succ m =>
            simp only [List.getD_cons_zero, List.getD_cons_succ]
            exact hall m (by simpa using hj)
        · intro j hj
          omega
      · right
        refine ⟨k + 1, by simpa using hk, ?_, ?_, ?_, ?_, ?_⟩
        · rw [hstep, h2]
          omega
        · rw [hstep, h1]
          rfl
        · calc rest.getD k 0 < l := hlt
            _ < ml := hl
        · intro j hj
          cases j with
          | zero =>
            simp only [List.getD_cons_zero, List.getD_cons_succ]
            exact le_of_lt hlt
          | succ m =>
            simp only [List.getD_cons_succ]
            exact hmin m (by simpa using hj)
        · intro j hj
          cases j with
          | zero =>
            simp only [List.getD_cons_zero, List.getD_cons_succ]
            exact hlt
          | succ m =>
            simp only [List.getD_cons_succ]
            exact hstrict m (by omega)
    · have hstep : least_loaded_loop (l :: rest) i ml b =
          least_loaded_loop rest (i + 1) ml b := by
        rw [hif, if_neg hl]
      rcases ih (i + 1) ml b with ⟨heq, hall⟩ | ⟨k, hk, h2, h1, hlt, hmin, hstrict⟩
      · left
        refine ⟨by rw [hstep, heq], ?_⟩
        intro j hj
        cases j with
        | zero =>
          simp only [List.getD_cons_zero]
          omega
        | succ m =>
          simp only [List.getD_cons_succ]
          exact hall m (by simpa using hj)
      · right
        refine ⟨k + 1, by simpa using hk, ?_, ?_, ?_, ?_, ?_⟩
        · rw [hstep, h2]
          omega
        · rw [hstep, h1]
          rfl
        · simpa using hlt
        · intro j hj
          cases j with
          | zero =>
            simp only [List.getD_cons_zero, List.getD_cons_succ]
            omega
          | succ m =>
            simp only [List.getD_cons_succ]
            exact hmin m (by simpa using hj)
        · intro j hj
          cases j with
          | zero =>
            simp only [List.getD_cons_zero, List.getD_cons_succ]
            omega
          | succ m =>
            simp only [List.getD_cons_succ]
            exact hstrict m (by omega)

/-- Every in-range position of a list holds a member of the list. -/
theorem getD_mem_of_lt {α : Type} (l : List α) (j : Nat) (d : α)
    (h : j < l.length) : l.getD j d ∈ l := by
  induction l generalizing j with
  | nil => simp at h
  | cons a t ih =>
    cases j with
    | zero => simp
    | succ m =>
      simp only [List.getD_cons_succ]
      exact List.mem_cons_of_mem a (ih m (by simpa using h))

/-- C7: over the 8 core loads (each a C int, hence at most INT_MAX),
get_least_loaded_core returns an index below NUM_CORES whose load is minimal,
and every strictly smaller index carries a strictly larger load, so ties
resolve to the lowest index. -/
theorem C7_least_loaded_core (loads : List Int)
    (hlen : loads.length = NUM_CORES)
    (hmax : ∀ l ∈ loads, l ≤ INT_MAX) :
    get_least_loaded_core loads < NUM_CORES ∧
    (∀ j, j < loads.length →
      loads.getD (get_least_loaded_core loads) 0 ≤ loads.getD j 0) ∧
    (∀ j, j < get_least_loaded_core loads →
      loads.getD (get_least_loaded_core loads) 0 < loads.getD j 0) := by
  rcases least_loaded_loop_spec loads 0 INT_MAX 0 with
    ⟨heq, hall⟩ | ⟨k, hk, h2, h1, _, hmin, hstrict⟩
  · have hz : get_least_loaded_core loads = 0 := by
      unfold get_least_loaded_core
      rw [heq]
    refine ⟨by rw [hz]; simp [NUM_CORES], ?_, ?_⟩
    · intro j hj
      rw [hz]
      have h0 : (0 : Nat) < loads.length := by
        rw [hlen]
        simp [NUM_CORES]
      have hub := hmax (loads.getD 0 0) (getD_mem_of_lt loads 0 0 h0)
      have hlb := hall j hj
      omega
    · intro j hj
      rw [hz] at hj
      omega
  · have hzk : get_least_loaded_core loads = k := by
      unfold get_least_loaded_core
      rw [h2]
      omega
    refine ⟨by rw [hzk, ← hlen]; exact hk, ?_, ?_⟩
    · intro j hj
      rw [hzk]
      exact hmin j hj
    · intro j hj
      rw [hzk] at hj
      rw [hzk]
      exact hstrict j hj

/-- Witness for C7: on the load vector with a tie for the minimum between
cores 2 and 5, the selection returns index 2, the lowest minimal one. -/
theorem C7_least_loaded_core_witness :
    get_least_loaded_core [4, 3, 1, 3, 2, 1, 4, 9] < NUM_CORES ∧
    (∀ j, j < ([4, 3, 1, 3, 2, 1, 4, 9] : List Int).length →
      ([4, 3, 1, 3, 2, 1, 4, 9] : List Int).getD
        (get_least_loaded_core [4, 3, 1, 3, 2, 1, 4, 9]) 0 ≤
      ([4, 3, 1, 3, 2, 1, 4, 9] : List Int).getD j 0) ∧
    get_least_loaded_core [4, 3, 1, 3, 2, 1, 4, 9] = 2 := by
  have h := C7_least_loaded_core [4, 3, 1, 3, 2, 1, 4, 9] (by decide)
    (by intro l hl; fin_cases hl <;> decide)
  exact ⟨h.1, h.2.1, by decide⟩

/-- Reading the i-th entry just after writing it gives the written value. -/
theorem getD_set_self {α : Type} (l : List α) (i : Nat) (h : i < l.length)
    (a d : α) : (l.set i a).getD i d = a := by
  simp [List.getD_eq_getElem?_getD, List.getElem?_set_self h]

/-- Writing the i-th entry leaves every other position unchanged. -/
theorem getD_set_ne {α : Type} (l : List α) {i j : Nat} (h : i ≠ j)
    (a d : α) : (l.set i a).getD j d = l.getD j d := by
  simp [List.getD_eq_getElem?_getD, List.getElem?_set_ne h]

/-- C8: create_process hands out the value of the shared counter as the new
pid and bumps the counter, so if every existing pid is below the counter the
new pid differs from every pid in every table; a PCB in state READY carrying
the new pid is appended to the chosen core and its current_load grows by one;
and the all-pids-below-the-counter invariant is preserved, which makes
successive pids strictly increasing across all cores. -/
theorem C8_create_process_fresh_pid (s : MKSystem) (i : Nat) (priority : Int)
    (hi : i < s.cores.length)
    (hfresh : ∀ c ∈ s.cores, ∀ p ∈ c.process_table, p.pid < s.global_pid) :
    (create_process_at s i priority).1 = s.global_pid ∧
    (create_process_at s i priority).2.global_pid = s.global_pid + 1 ∧
    (∀ c ∈ s.cores, ∀ p ∈ c.process_table,
      p.pid ≠ (create_process_at s i priority).1) ∧
    ((create_process_at s i priority).2.cores.getD i defaultCore).process_table =
      (s.cores.getD i defaultCore).process_table ++
        [⟨s.global_pid, (s.cores.getD i defaultCore).core_id,
          ProcessState.READY, priority, 0⟩] ∧
    ((create_process_at s i priority).2.cores.getD i defaultCore).stats.current_load =
      (s.cores.getD i defaultCore).stats.current_load + 1 ∧
    (∀ c ∈ (create_process_at s i priority).2.cores, ∀ p ∈ c.process_table,
      p.pid < (create_process_at s i priority).2.global_pid) := by
  refine ⟨rfl, rfl, ?_, ?_, ?_, ?_⟩
  · intro c hc p hp
    have h := hfresh c hc p hp
    intro habs
    have h1 : (create_process_at s i priority).1 = s.global_pid := rfl
    rw [habs, h1] at h
    exact lt_irrefl _ h
  · show ((s.cores.set i _).getD i defaultCore).process_table = _
    rw [getD_set_self s.cores i hi]
  · show ((s.cores.set i _).getD i defaultCore).stats.current_load = _
    rw [getD_set_self s.cores i hi]
  · intro c hc p hp
    rcases List.mem_or_eq_of_mem_set hc with hmem | heqc
    · have h := hfresh c hmem p hp
      show p.pid < s.global_pid + 1
      omega
    · subst heqc
      simp only [List.mem_append, List.mem_singleton] at hp
      rcases hp with hold | hnew
      · have h := hfresh (s.cores.getD i defaultCore)
          (getD_mem_of_lt s.cores i defaultCore hi) p hold
        show p.pid < s.global_pid + 1
        omega
      · rw [hnew]
        show s.global_pid < s.global_pid + 1
        omega

/-- Witness for C8: creating on core 0 of sysOne yields pid 1 (the counter)
and advances the counter to 2. -/
theorem C8_create_process_fresh_pid_witness :
    (create_process_at sysOne 0 7).1 = sysOne.global_pid ∧
    (create_process_at sysOne 0 7).2.global_pid = sysOne.global_pid + 1 ∧
    (∀ c ∈ sysOne.cores, ∀ p ∈ c.process_table,
      p.pid ≠ (create_process_at sysOne 0 7).1) := by
  have h := C8_create_process_fresh_pid sysOne 0 7 (by decide) (by decide)
  exact ⟨h.1, h.2.1, h.2.2.1⟩

/-- C6 counterexample: on a stopped system whose core 0 still holds pid 7,
MultikernelSystem::migrate_process returns true, refuting the claim that
migration while not running refuses and returns false. -/
theorem C6_migrate_succeeds_while_stopped :
    sysStopped.system_running = false ∧
    (MultikernelSystem.migrate_process sysStopped 7 0 1 0).1 = true := by
  exact ⟨rfl, by decide⟩

/-- C6 (amended): create_process while not running refuses and returns -1
without changing state; migrate_process rejects out-of-range core indices
with false and no state change, but contains no running check: with in-range
indices it delegates to the source core whether or not the system runs; while
running, create_process returns the shared counter as pid (hence nonnegative
whenever the counter is) and creates on the least loaded core. -/
theorem C6_lifecycle_gating (s : MKSystem) (priority pid src tgt now : Int) :
    (s.system_running = false →
      MultikernelSystem.create_process s priority = (-1, s)) ∧
    ((src < 0 ∨ (NUM_CORES : Int) ≤ src ∨ tgt < 0 ∨ (NUM_CORES : Int) ≤ tgt) →
      MultikernelSystem.migrate_process s pid src tgt now = (false, s)) ∧
    (s.system_running = true →
      MultikernelSystem.create_process s priority =
        create_process_at s
          (get_least_loaded_core (s.cores.map fun c => c.stats.current_load))
          priority ∧
      (0 ≤ s.global_pid → 0 ≤ (MultikernelSystem.create_process s priority).1)) ∧
    (0 ≤ src → src < (NUM_CORES : Int) → 0 ≤ tgt → tgt < (NUM_CORES : Int) →
      MultikernelSystem.migrate_process s pid src tgt now =
        migrate_process_at s src.toNat pid tgt now) := by
  refine ⟨?_, ?_, ?_, ?_⟩
  · intro h
    unfold MultikernelSystem.create_process
    rw [if_pos h]
  · intro h
    unfold MultikernelSystem.migrate_process
    rw [if_pos (by tauto)]
  · intro h
    have hne : ¬ s.system_running = false := by simp [h]
    have heq : MultikernelSystem.create_process s priority =
        create_process_at s
          (get_least_loaded_core (s.cores.map fun c => c.stats.current_load))
          priority := by
      unfold MultikernelSystem.create_process
      rw [if_neg hne]
    refine ⟨heq, ?_⟩
    intro hg
    rw [heq]
    exact hg
  · intro h1 h2 h3 h4
    unfold MultikernelSystem.migrate_process
    rw [if_neg (by push_neg; exact ⟨by omega, by omega, by omega, by omega⟩)]

/-- Witness for C6: on the stopped sysStopped, create_process refuses with -1,
and the out-of-range migration (target core 9) is rejected. -/
theorem C6_lifecycle_gating_witness :
    MultikernelSystem.create_process sysStopped 5 = (-1, sysStopped) ∧
    MultikernelSystem.migrate_process sysStopped 7 0 9 0 = (false, sysStopped) := by
  have h := C6_lifecycle_gating sysStopped 5 7 0 9 0
  exact ⟨h.1 rfl, h.2.1 (by decide)⟩

/-- Erasing the first match from a list that holds at most one match leaves a
list with no match at all. -/
theorem eraseP_no_match {α : Type} (q : α → Bool) :
    ∀ (l : List α), l.countP q ≤ 1 → ∀ a ∈ l.eraseP q, q a = false := by
  intro l
  induction l with
  | nil =>
    intro _ a ha
    simp at ha
  | cons x t ih =>
    intro hcount a ha
    by_cases hx : q x
    · rw [List.eraseP_cons_of_pos hx] at ha
      rw [List.countP_cons_of_pos _ _ hx] at hcount
      have h0 : t.countP q = 0 := by omega
      have := List.countP_eq_zero.1 h0 a ha
      simpa using this
    · rw [List.eraseP_cons_of_neg (by simpa using hx)] at ha
      rcases List.mem_cons.1 ha with rfl | hmem
      · simpa using hx
      · rw [List.countP_cons_of_neg _ _ (by simpa using hx)] at hcount
        exact ih hcount a hmem

/-- A push whose destination is out of range, whose routing table is unset, or
whose destination inbox is full, is Rejected with nothing changed. -/
theorem send_message_rejected (routed : Bool) (st : CoreStatistics)
    (msg : Message) (ib : List Message)
    (hfail : msg.dest_core < 0 ∨ (NUM_CORES : Int) ≤ msg.dest_core ∨
      routed = false ∨ MESSAGE_QUEUE_SIZE ≤ ib.length) :
    send_message routed st msg ib = (SendResult.Rejected, st, ib) := by
  unfold send_message
  split_ifs with h1 h2 h3
  · rfl
  · rfl
  · rfl
  · exfalso
    rcases hfail with h | h | h | h
    · exact h1 (Or.inl h)
    · exact h1 (Or.inr h)
    · exact h2 h
    · exact h3 h

/-- An undeliverable push leaves the whole system unchanged. -/
theorem system_send_noop (s : MKSystem) (sender_idx : Nat) (msg : Message)
    (hfail : msg.dest_core < 0 ∨ (NUM_CORES : Int) ≤ msg.dest_core ∨
      s.routing_ready = false ∨
      MESSAGE_QUEUE_SIZE ≤
        (s.cores.getD msg.dest_core.toNat defaultCore).inbox.length) :
    system_send s sender_idx msg = s := by
  simp only [system_send]
  rw [send_message_rejected _ _ _ _ hfail]

/-- C10: when the pid exists (exactly once) on the source core but the MIGRATE
message cannot be delivered — target core index out of range, routing table
unset, or target inbox at capacity — migrate_process still erases the local
PCB, decrements current_load and returns true, while no inbox changes: the
process vanishes from every table yet the caller observes success. -/
theorem C10_migration_silent_loss (s : MKSystem) (src_idx : Nat)
    (pid target_core now : Int) (pcb : ProcessControlBlock)
    (hsi : src_idx < s.cores.length)
    (hfind : (s.cores.getD src_idx defaultCore).process_table.find?
        (fun p => p.pid == pid) = some pcb)
    (honce : (s.cores.getD src_idx defaultCore).process_table.countP
        (fun p => p.pid == pid) ≤ 1)
    (hother : ∀ j, j < s.cores.length → j ≠ src_idx →
      ∀ p ∈ (s.cores.getD j defaultCore).process_table, p.pid ≠ pid)
    (hfail : target_core < 0 ∨ (NUM_CORES : Int) ≤ target_core ∨
      s.routing_ready = false ∨
      MESSAGE_QUEUE_SIZE ≤
        (s.cores.getD target_core.toNat defaultCore).inbox.length) :
    (migrate_process_at s src_idx pid target_core now).1 = true ∧
    (∀ j, j < s.cores.length →
      ∀ p ∈ ((migrate_process_at s src_idx pid target_core now).2.cores.getD j
        defaultCore).process_table, p.pid ≠ pid) ∧
    ((migrate_process_at s src_idx pid target_core now).2.cores.getD src_idx
        defaultCore).stats.current_load =
      (s.cores.getD src_idx defaultCore).stats.current_load - 1 ∧
    (∀ j, j < s.cores.length →
      ((migrate_process_at s src_idx pid target_core now).2.cores.getD j
        defaultCore).inbox = (s.cores.getD j defaultCore).inbox) := by
  have hnoop : system_send s src_idx
      ⟨(s.cores.getD src_idx defaultCore).core_id, target_core,
       MessageType.PROCESS_MIGRATE, pid, pcb.priority, now⟩ = s :=
    system_send_noop s src_idx _ hfail
  have hmig : migrate_process_at s src_idx pid target_core now =
      (true, { s with cores := s.cores.set src_idx (erase_core (s.cores.getD src_idx defaultCore) pid) }) := by
    simp only [migrate_process_at, hfind]
    rw [hnoop]
  rw [hmig]
  refine ⟨rfl, ?_, ?_, ?_⟩
  · intro j hj p hp
    by_cases hjs : j = src_idx
    · subst hjs
      rw [getD_set_self s.cores j hj] at hp
      simp only [erase_core] at hp
      have h := eraseP_no_match (fun p => p.pid == pid) _ honce p hp
      simpa using h
    · rw [getD_set_ne s.cores (by omega) _ defaultCore] at hp
      exact hother j hj hjs p hp
  · rw [getD_set_self s.cores src_idx hsi]
    simp [erase_core]
  · intro j hj
    by_cases hjs : j = src_idx
    · subst hjs
      rw [getD_set_self s.cores j hj]
      simp [erase_core]
    · rw [getD_set_ne s.cores (by omega) _ defaultCore]

/-- Witness for C10: migrating pid 7 of sysLost to the invalid core 9 reports
success while the pid disappears from every table. -/
theorem C10_migration_silent_loss_witness :
    (migrate_process_at sysLost 0 7 9 0).1 = true ∧
    (∀ j, j < sysLost.cores.length →
      ∀ p ∈ ((migrate_process_at sysLost 0 7 9 0).2.cores.getD j
        defaultCore).process_table, p.pid ≠ 7) := by
  have h := C10_migration_silent_loss sysLost 0 7 9 0
    ⟨7, 0, ProcessState.READY, 5, 0⟩ (by decide) (by decide) (by decide)
    (by decide) (by decide)
  exact ⟨h.1, h.2.1⟩

/-- Every reachable state of the migration is one of the five enumerated. -/
theorem migration_reachable_mem (s : MigrationState)
    (h : MigrationReachable s) : s ∈ migrationStateList := by
  induction h with
  | init => decide
  | step hr hs ih =>
    cases hs with
    | enqueue hu =>
      fin_cases ih <;> revert hu <;> decide
    | erase hu =>
      fin_cases ih <;> revert hu <;> decide
    | consume hu =>
      fin_cases ih <;> revert hu <;> decide

/-- C1 counterexample: the state in which the pid sits in BOTH tables is
reachable — the target worker consumes the MIGRATE message and appends the
PCB before the source thread erases its local copy — refuting the claim that
an observer scanning both tables can never see the pid present in both. -/
theorem C1_pid_in_both_tables :
    MigrationReachable ⟨true, false, true, 1⟩ ∧
    (⟨true, false, true, 1⟩ : MigrationState).src_has = true ∧
    (⟨true, false, true, 1⟩ : MigrationState).tgt_has = true := by
  refine ⟨?_, rfl, rfl⟩
  have h1 : MigrationReachable initMigration := MigrationReachable.init
  have h2 : MigrationReachable ⟨true, true, false, 1⟩ :=
    MigrationReachable.step h1 (MigrationStep.enqueue initMigration rfl)
  exact MigrationReachable.step h2
    (MigrationStep.consume ⟨true, true, false, 1⟩ rfl)

/-- C1 (amended): with the enqueue-then-remove ordering the pid may
transiently be visible in both tables (counterexample above) or in neither
(erased locally while the message is still in flight); what does hold is that
at every reachable state the pid survives in the source table, the in-flight
message, or the target table, and once the migration has completed (source
returned and message consumed) the pid sits in the target table and no longer
in the source table. -/
theorem C1_migration_handoff (s : MigrationState)
    (h : MigrationReachable s) :
    (s.src_has = true ∨ s.msg_in_flight = true ∨ s.tgt_has = true) ∧
    (s.src_pc = 2 → s.msg_in_flight = false →
      s.src_has = false ∧ s.tgt_has = true) := by
  have hm := migration_reachable_mem s h
  fin_cases hm <;> decide

/-- Witness for C1: the amended statement evaluated at the initial state. -/
theorem C1_migration_handoff_witness :
    (initMigration.src_has = true ∨ initMigration.msg_in_flight = true ∨
      initMigration.tgt_has = true) ∧
    (initMigration.src_pc = 2 → initMigration.msg_in_flight = false →
      initMigration.src_has = false ∧ initMigration.tgt_has = true) :=
  C1_migration_handoff initMigration MigrationReachable.init

/-- C2: on a system with one overloaded core (loads 8,0,...,0: core 0 exceeds
1.5 times the average load 1), balance_load acquires the balancer mutex and
then, inside the loop, calls get_least_loaded_core which acquires the same
already-held non-recursive mutex — the self-deadlock the claim rules out. -/
theorem C2_balance_load_self_deadlock :
    acquire_while_held 0
      (balance_load_lock_trace [8, 0, 0, 0, 0, 0, 0, 0]) = true := by
  have htrace : balance_load_lock_trace [8, 0, 0, 0, 0, 0, 0, 0] =
      [LockOp.acquire, LockOp.acquire, LockOp.release, LockOp.release] := by
    norm_num [balance_load_lock_trace, NUM_CORES, List.range_succ,
      List.foldl_append, List.foldl_cons, List.foldl_nil]
  rw [htrace]
  rfl

end Multikernel
